import Mathlib

/-!
Verification of the daily top-10 paper pipeline (`src/daily_top10.py`).

The program is a linear batch pipeline: collect yesterday's submissions from a
paginated, descending-date-sorted feed; score and rank them; keep the top 10;
analyze each; persist CSV/JSON artifacts; render an HTML report; send an email.

Shallow embedding conventions:
* Instants (`datetime` values with UTC tz) are `Int` seconds; one day is the
  constant `oneDay = 86400` (`datetime.timedelta(days=1)`).
* The upstream feed (`client.results(search)`) is a `List Paper` of the items
  the generator yields in order, together with a flag `feedError` meaning the
  generator raises a transport exception when the item after the last listed
  one is requested.  An exception mid-stream is the same as a shorter list with
  the flag set.
* Quality scores (floats produced by the opaque injected scorer) are modelled
  as `Int`: every claim about them is purely order-theoretic.
* `strftime('%Y-%m-%d')` is an opaque injected formatter `Int → String`.
* Fallible code returns `Except`; side effects of the reporting phase are an
  explicit `Effect` trace.
-/

/-! ## Definitions -/

/-- One day, in seconds: `datetime.timedelta(days=1)`. -/
def oneDay : Int := 86400

/-- A feed item as yielded by the arXiv client (`arxiv.Result`). -/
structure Paper where
  title : String
  entry_id : String
  authors : List String
  categories : List String
  published : Int
  updated : Int
  summary : String
deriving Repr, DecidableEq

/-- Final state of the collection loop in `get_specific_date_papers`:
the collected papers, the (possibly extended) window start, the extension
counter `error_retries`, and whether the loop consumed the whole feed
(so that a pending transport exception, if any, was actually raised). -/
structure CollectState where
  papers : List Paper
  start : Int
  retries : Nat
  reachedEnd : Bool
deriving Repr, DecidableEq

/-- The `for paper in client.results(search):` loop body of
`get_specific_date_papers` (src/daily_top10.py lines 37-53):
skip items with `published >= target_end`; on an item with
`published < target_start`, extend the window start one day backward and
continue if nothing was collected yet and fewer than 3 extensions happened,
otherwise break; otherwise append the item. -/
def collectGo (tend : Int) : List Paper → Int → Nat → List Paper → CollectState
  | [], start, retries, acc => ⟨acc, start, retries, true⟩
  | p :: rest, start, retries, acc =>
    if p.published ≥ tend then
      collectGo tend rest start retries acc
    else if p.published < start then
      if acc = [] ∧ retries < 3 then
        collectGo tend rest (start - oneDay) (retries + 1) acc
      else
        ⟨acc, start, retries, false⟩
    else
      collectGo tend rest start retries (acc ++ [p])

/-- The collection loop started the way `get_specific_date_papers` starts it:
`target_end = target_start + one day`, no papers, zero retries. -/
def collectState (feed : List Paper) (target_start : Int) : CollectState :=
  collectGo (target_start + oneDay) feed target_start 0 []

/-- `get_specific_date_papers` (src/daily_top10.py lines 19-59).  The
`try/except` re-raises the transport exception only when it was actually
raised (the loop pulled past the last yielded item) and `papers` is empty;
otherwise the collected (possibly partial, possibly empty) list is returned. -/
def get_specific_date_papers (feed : List Paper) (feedError : Bool)
    (target_start : Int) : Except Unit (List Paper) :=
  if feedError = true ∧ (collectState feed target_start).reachedEnd = true ∧
      (collectState feed target_start).papers = [] then
    Except.error ()
  else
    Except.ok (collectState feed target_start).papers

/-- A row of the `paper_scores` dict built in `save_top10` (lines 66-76), in
the dict literal's key order: rank, title, url, score, authors, categories,
published, updated, abstract. -/
structure ScoredRow where
  rank : Nat
  title : String
  url : String
  score : Int
  authors : Nat
  categories : String
  published : String
  updated : String
  abstract : String
deriving Repr, DecidableEq

/-- Building one `paper_scores` entry: rank 0, newline-stripped title and
abstract, entry id as URL, the scorer's score, the author count, the
comma-joined categories, and formatted published/updated dates (`fmt` is the
opaque `strftime('%Y-%m-%d')`). -/
def mkRow (fmt : Int → String) (p : Paper) (score : Int) : ScoredRow :=
  { rank := 0
    title := (p.title.replace "\n" " ")
    url := p.entry_id
    score := score
    authors := p.authors.length
    categories := String.intercalate ", " p.categories
    published := fmt p.published
    updated := fmt p.updated
    abstract := (p.summary.replace "\n" " ") }

/-- The `paper_scores` list: one row per input paper, in input order. -/
def scoredRows (fmt : Int → String) (papers : List Paper) (scorer : Paper → Int) :
    List ScoredRow :=
  papers.map (fun p => mkRow fmt p (scorer p))

/-- One step of the stable descending insertion modelling
`paper_scores.sort(key=lambda x: x['score'], reverse=True)`: the new row goes
after every already-placed row of greater *or equal* score, so rows that came
earlier in the input stay earlier among equal scores. -/
def insertDesc (p : ScoredRow) : List ScoredRow → List ScoredRow
  | [] => [p]
  | q :: qs => if q.score ≥ p.score then q :: insertDesc p qs else p :: q :: qs

/-- Python's `list.sort(key=..., reverse=True)` is a stable sort into
descending key order; `sortDesc` realises exactly that semantics (sortedness
is `sortDesc_sorted`, stability is `rank_sort_stable`). -/
def sortDesc (l : List ScoredRow) : List ScoredRow :=
  l.foldl (fun acc p => insertDesc p acc) []

/-- `for i, paper in enumerate(top10, 1): paper['rank'] = i` (lines 85-86). -/
def assignRanksFrom : Nat → List ScoredRow → List ScoredRow
  | _, [] => []
  | n, r :: rs => { r with rank := n } :: assignRanksFrom (n + 1) rs

/-- The pure core of `save_top10`: score every paper, stably sort by score
descending, truncate to the first 10, and assign ranks 1, 2, …. -/
def save_top10 (fmt : Int → String) (papers : List Paper) (scorer : Paper → Int) :
    List ScoredRow :=
  assignRanksFrom 1 ((sortDesc (scoredRows fmt papers scorer)).take 10)

/-- The CSV path computed at lines 102-103: keyed by `current_date`
(`datetime.datetime.now(pytz.UTC)` formatted `%Y%m%d`), even though
`save_top10` also receives `target_date`. -/
def csv_file (current_date : String) (target_date : String) : String :=
  "data/daily_top10/top10_" ++ current_date ++ ".csv"

/-- The `paper_scores` dict rendered as (column name, cell) pairs in the dict
literal's insertion order, which is the column order `pd.DataFrame` gives the
CSV written by `df.to_csv`. -/
def rowFields (r : ScoredRow) : List (String × String) :=
  [("rank", toString r.rank), ("title", r.title), ("url", r.url),
   ("score", toString r.score), ("authors", toString r.authors),
   ("categories", r.categories), ("published", r.published),
   ("updated", r.updated), ("abstract", r.abstract)]

/-- Rows in descending score order (the sortedness invariant). -/
def SortedDesc (l : List ScoredRow) : Prop :=
  l.Pairwise (fun a b => b.score ≤ a.score)

/-- One per-paper analysis output, after the two fields the orchestrator adds:
`result['submission_date'] = paper['published']` and
`result['html_url'] = paper['url']` (lines 129-130).  The body of the dict
returned by `paper_analyzer.analyze_paper` is opaque (`content`). -/
structure AnalysisResult where
  content : String
  submission_date : String
  html_url : String
deriving Repr, DecidableEq

/-- Observable side effects of the reporting phase, in program order:
the attempt to analyze one paper (the `분석 시작` print plus the analyzer
call), the `json.dump` of the results file, the HTML report generation, and
the email dispatch. -/
inductive Effect where
  | analyzed (title : String)
  | wroteJson (path : String) (results : List AnalysisResult)
  | renderedHtml (results : List AnalysisResult)
  | sentEmail (results : List AnalysisResult)
deriving Repr, DecidableEq

/-- Effects that persist or publish the report (JSON write, HTML render,
email send), as opposed to a mere per-paper analysis attempt. -/
def isReportEffect : Effect → Bool
  | Effect.analyzed _ => false
  | Effect.wroteJson _ _ => true
  | Effect.renderedHtml _ => true
  | Effect.sentEmail _ => true

/-- The JSON artifact path (lines 135-136): keyed by the run timestamp. -/
def analysis_file (timestamp : String) : String :=
  "data/analysis/analysis_results_" ++ timestamp ++ ".json"

/-- The `for paper in top10_papers:` analysis loop (lines 124-132).  The
analyzer may fail (`Except.error`); the loop has no handler, so the first
failure aborts it, after the attempt effects of the papers up to and
including the failing one. -/
def analyzeLoop (analyze : ScoredRow → Except String String) :
    List ScoredRow → List Effect × Except String (List AnalysisResult)
  | [] => ([], Except.ok [])
  | p :: ps =>
    match analyze p with
    | Except.error e => ([Effect.analyzed p.title], Except.error e)
    | Except.ok c =>
      let rest := analyzeLoop analyze ps
      (Effect.analyzed p.title :: rest.1,
        match rest.2 with
        | Except.error e => Except.error e
        | Except.ok rs =>
          Except.ok ({ content := c, submission_date := p.published,
                       html_url := p.url } :: rs))

/-- `analyze_and_generate_report`, given the already-computed top-10 list:
run the analysis loop; only if it completed, write the JSON artifact, render
the HTML report, and send the email, in that order.  An exception in the loop
propagates (second component `Except.error`) before any of those three
effects happen. -/
def analyze_and_generate_report (analyze : ScoredRow → Except String String)
    (top10 : List ScoredRow) (timestamp : String) :
    List Effect × Except String (List AnalysisResult) :=
  match (analyzeLoop analyze top10).2 with
  | Except.error e => ((analyzeLoop analyze top10).1, Except.error e)
  | Except.ok rs =>
    ((analyzeLoop analyze top10).1 ++
       [Effect.wroteJson (analysis_file timestamp) rs,
        Effect.renderedHtml rs, Effect.sentEmail rs],
     Except.ok rs)

/-- A paper submitted 100 seconds into the target day that starts at 0. -/
def paperA : Paper :=
  ⟨"A title", "http://example.org/a", ["x"], ["cs.AI"], 100, 100, "abs"⟩

/-- A paper submitted 1 second before the window start 0. -/
def paperOld : Paper :=
  ⟨"B title", "http://example.org/b", ["y"], ["cs.AI"], -1, -1, "abs"⟩

/-- A sample top-10 row. -/
def row0 : ScoredRow :=
  ⟨0, "A title", "http://example.org/a", 0, 1, "cs.AI", "2024-01-01",
   "2024-01-01", "abs"⟩

/-! ## Lemmas about the collection loop -/

/-- The window start never moves forward during the scan. -/
theorem collectGo_start_le (tend : Int) (feed : List Paper) :
    ∀ (start : Int) (retries : Nat) (acc : List Paper),
      (collectGo tend feed start retries acc).start ≤ start := by
  induction feed with
  | nil => intro start retries acc; simp [collectGo]
  | cons p rest ih =>
    intro start retries acc
    simp only [collectGo]
    split
    · exact ih start retries acc
    · split
      · split
        · have h := ih (start - oneDay) (retries + 1) acc
          have : (0 : Int) < oneDay := by simp [oneDay]
          omega
        · simp
      · exact ih start retries (acc ++ [p])

/-- The retry counter never exceeds 3 if it starts at a value ≤ 3. -/
theorem collectGo_retries_le (tend : Int) (feed : List Paper) :
    ∀ (start : Int) (retries : Nat) (acc : List Paper), retries ≤ 3 →
      (collectGo tend feed start retries acc).retries ≤ 3 := by
  induction feed with
  | nil => intro start retries acc h; simpa [collectGo] using h
  | cons p rest ih =>
    intro start retries acc h
    simp only [collectGo]
    split
    · exact ih start retries acc h
    · split
      · split
        · next hc => exact ih (start - oneDay) (retries + 1) acc (by omega)
        · simpa using h
      · exact ih start retries (acc ++ [p]) h

/-- Each extension moves the start exactly one day backward: the final start
is the initial start minus one day per extension performed. -/
theorem collectGo_start_eq (tend : Int) (feed : List Paper) :
    ∀ (start : Int) (retries : Nat) (acc : List Paper),
      retries ≤ (collectGo tend feed start retries acc).retries ∧
      (collectGo tend feed start retries acc).start =
        start - (((collectGo tend feed start retries acc).retries - retries : Nat) : Int) * oneDay := by
  induction feed with
  | nil => intro start retries acc; simp [collectGo]
  | cons p rest ih =>
    intro start retries acc
    simp only [collectGo]
    split
    · exact ih start retries acc
    · split
      · split
        · obtain ⟨h1, h2⟩ := ih (start - oneDay) (retries + 1) acc
          constructor
          · omega
          · rw [h2]
            have hcast : (((collectGo tend rest (start - oneDay) (retries + 1) acc).retries - retries : Nat) : Int)
                = (((collectGo tend rest (start - oneDay) (retries + 1) acc).retries - (retries + 1) : Nat) : Int) + 1 := by
              omega
            rw [hcast]; ring
        · simp
      · exact ih start retries (acc ++ [p])

/-- Once the collected list is nonempty, neither the retry counter nor the
window start changes any more: extensions happen only while it is empty. -/
theorem collectGo_frozen (tend : Int) (feed : List Paper) :
    ∀ (start : Int) (retries : Nat) (acc : List Paper), acc ≠ [] →
      (collectGo tend feed start retries acc).retries = retries ∧
      (collectGo tend feed start retries acc).start = start := by
  induction feed with
  | nil => intro start retries acc _; simp [collectGo]
  | cons p rest ih =>
    intro start retries acc hne
    simp only [collectGo]
    split
    · exact ih start retries acc hne
    · split
      · split
        · next hc => exact absurd hc.1 hne
        · simp
      · exact ih start retries (acc ++ [p]) (by simp)

/-- Every collected paper lies in the half-open window
`[final start, target_end)`, provided that invariant already holds of the
accumulator relative to the current start. -/
theorem collectGo_mem_window (tend : Int) (feed : List Paper) :
    ∀ (start : Int) (retries : Nat) (acc : List Paper),
      (∀ q ∈ acc, start ≤ q.published ∧ q.published < tend) →
      ∀ q ∈ (collectGo tend feed start retries acc).papers,
        (collectGo tend feed start retries acc).start ≤ q.published ∧ q.published < tend := by
  induction feed with
  | nil =>
    intro start retries acc hacc
    simpa [collectGo] using hacc
  | cons p rest ih =>
    intro start retries acc hacc
    simp only [collectGo]
    split
    · exact ih start retries acc hacc
    · split
      · split
        · next hc =>
          refine ih (start - oneDay) (retries + 1) acc ?_
          intro q hq
          rw [hc.1] at hq
          simp at hq
        · simpa using hacc
      · next hlt =>
        next hge =>
        refine ih start retries (acc ++ [p]) ?_
        intro q hq
        rcases List.mem_append.mp hq with h | h
        · exact hacc q h
        · have : q = p := by simpa using h
          subst this
          constructor
          · omega
          · omega

/-! ## Lemmas about the ranker -/

theorem mem_insertDesc {a p : ScoredRow} {l : List ScoredRow} :
    a ∈ insertDesc p l ↔ a = p ∨ a ∈ l := by
  induction l with
  | nil => simp [insertDesc]
  | cons q qs ih =>
    simp only [insertDesc]
    split
    · rw [List.mem_cons, ih, List.mem_cons]
      tauto
    · rw [List.mem_cons, List.mem_cons]

theorem sortedDesc_insertDesc {p : ScoredRow} {l : List ScoredRow}
    (h : SortedDesc l) : SortedDesc (insertDesc p l) := by
  induction l with
  | nil => simp [insertDesc, SortedDesc]
  | cons q qs ih =>
    rw [SortedDesc, List.pairwise_cons] at h
    obtain ⟨hq, hqs⟩ := h
    simp only [insertDesc]
    split
    · next hge =>
      rw [SortedDesc, List.pairwise_cons]
      refine ⟨?_, ih hqs⟩
      intro b hb
      rcases mem_insertDesc.mp hb with rfl | hb
      · exact hge
      · exact hq b hb
    · next hlt =>
      rw [SortedDesc, List.pairwise_cons]
      constructor
      · intro b hb
        rcases List.mem_cons.mp hb with rfl | hb
        · omega
        · have := hq b hb
          omega
      · exact List.Pairwise.cons hq hqs

theorem sortedDesc_foldl (l : List ScoredRow) :
    ∀ acc, SortedDesc acc →
      SortedDesc (l.foldl (fun a p => insertDesc p a) acc) := by
  induction l with
  | nil => intro acc h; simpa using h
  | cons p ps ih =>
    intro acc h
    exact ih (insertDesc p acc) (sortedDesc_insertDesc h)

theorem sortDesc_sorted (l : List ScoredRow) : SortedDesc (sortDesc l) :=
  sortedDesc_foldl l [] (by simp [SortedDesc])

theorem length_insertDesc (p : ScoredRow) (l : List ScoredRow) :
    (insertDesc p l).length = l.length + 1 := by
  induction l with
  | nil => simp [insertDesc]
  | cons q qs ih =>
    simp only [insertDesc]
    split
    · simp [ih]
    · simp

theorem length_foldl_insertDesc (l : List ScoredRow) :
    ∀ acc, (l.foldl (fun a p => insertDesc p a) acc).length = acc.length + l.length := by
  induction l with
  | nil => intro acc; simp
  | cons p ps ih =>
    intro acc
    simp only [List.foldl_cons]
    rw [ih (insertDesc p acc), length_insertDesc]
    simp
    omega

theorem length_sortDesc (l : List ScoredRow) : (sortDesc l).length = l.length := by
  rw [sortDesc, length_foldl_insertDesc]
  simp

/-- In a descending-sorted list every score is at most the head's score. -/
theorem sortedDesc_head_ge {q : ScoredRow} {qs : List ScoredRow}
    (h : SortedDesc (q :: qs)) : ∀ b ∈ q :: qs, b.score ≤ q.score := by
  rw [SortedDesc, List.pairwise_cons] at h
  intro b hb
  rcases List.mem_cons.mp hb with rfl | hb
  · omega
  · exact h.1 b hb

/-- Inserting into a descending-sorted list puts the new row after every row
of the same score and changes no other relative position: for each score `s`,
the `s`-filtered sublist either gains the new row at its end or is unchanged. -/
theorem filter_insertDesc (s : Int) (p : ScoredRow) :
    ∀ l : List ScoredRow, SortedDesc l →
      (insertDesc p l).filter (fun r => decide (r.score = s)) =
        if p.score = s then
          l.filter (fun r => decide (r.score = s)) ++ [p]
        else
          l.filter (fun r => decide (r.score = s)) := by
  intro l
  induction l with
  | nil =>
    intro _
    simp only [insertDesc]
    by_cases hp : p.score = s <;> simp [hp]
  | cons q qs ih =>
    intro hsort
    have hqs : SortedDesc qs := by
      rw [SortedDesc, List.pairwise_cons] at hsort
      exact hsort.2
    simp only [insertDesc]
    split
    · next hge =>
      rw [List.filter_cons, List.filter_cons, ih hqs]
      by_cases hp : p.score = s <;> by_cases hq : q.score = s <;> simp [hp, hq]
    · next hlt =>
      by_cases hp : p.score = s
      · have hfil : (q :: qs).filter (fun r => decide (r.score = s)) = [] := by
          rw [List.filter_eq_nil_iff]
          intro b hb
          have := sortedDesc_head_ge hsort b hb
          simp only [decide_eq_true_eq]
          omega
        rw [if_pos hp, hfil, List.filter_cons]
        simp [hp, hfil]
      · rw [if_neg hp, List.filter_cons]
        simp [hp]

/-- Stability of the fold realizing `sort(..., reverse=True)`: relative order
inside each equal-score class is the input order. -/
theorem filter_foldl_insertDesc (s : Int) (l : List ScoredRow) :
    ∀ acc, SortedDesc acc →
      (l.foldl (fun a p => insertDesc p a) acc).filter (fun r => decide (r.score = s)) =
        acc.filter (fun r => decide (r.score = s)) ++
          l.filter (fun r => decide (r.score = s)) := by
  induction l with
  | nil => intro acc _; simp
  | cons p ps ih =>
    intro acc hacc
    simp only [List.foldl_cons]
    rw [ih (insertDesc p acc) (sortedDesc_insertDesc hacc),
        filter_insertDesc s p acc hacc, List.filter_cons]
    split
    · next hp => simp [hp]
    · next hp => simp [hp]

/-- The rank fields written by `assignRanksFrom n` are `n, n+1, …`. -/
theorem map_rank_assignRanksFrom (l : List ScoredRow) :
    ∀ n, (assignRanksFrom n l).map (fun r => r.rank) = List.range' n l.length := by
  induction l with
  | nil => intro n; simp [assignRanksFrom]
  | cons r rs ih =>
    intro n
    simp [assignRanksFrom, List.range'_succ, ih (n + 1)]

/-- Assigning ranks does not touch scores. -/
theorem map_score_assignRanksFrom (l : List ScoredRow) :
    ∀ n, (assignRanksFrom n l).map (fun r => r.score) = l.map (fun r => r.score) := by
  induction l with
  | nil => intro n; simp [assignRanksFrom]
  | cons r rs ih =>
    intro n
    simp [assignRanksFrom, ih (n + 1)]

theorem length_assignRanksFrom (l : List ScoredRow) :
    ∀ n, (assignRanksFrom n l).length = l.length := by
  induction l with
  | nil => intro n; simp [assignRanksFrom]
  | cons r rs ih =>
    intro n
    simp [assignRanksFrom, ih (n + 1)]

/-! ## Lemmas about the reporter -/

/-- The analysis loop emits only per-paper attempt effects. -/
theorem analyzeLoop_trace_analyzed (analyze : ScoredRow → Except String String) :
    ∀ l : List ScoredRow, ∀ eff ∈ (analyzeLoop analyze l).1,
      isReportEffect eff = false := by
  intro l
  induction l with
  | nil => intro eff h; simp [analyzeLoop] at h
  | cons p ps ih =>
    intro eff h
    simp only [analyzeLoop] at h
    cases hp : analyze p with
    | error e =>
      rw [hp] at h
      simp at h
      simp [h, isReportEffect]
    | ok c =>
      rw [hp] at h
      simp only [List.mem_cons] at h
      rcases h with rfl | h
      · simp [isReportEffect]
      · exact ih eff h

/-- If some paper's analysis fails, the whole loop fails. -/
theorem analyzeLoop_error (analyze : ScoredRow → Except String String) :
    ∀ l : List ScoredRow, (∃ p ∈ l, ∃ e, analyze p = Except.error e) →
      ∃ e, (analyzeLoop analyze l).2 = Except.error e := by
  intro l
  induction l with
  | nil => intro h; simp at h
  | cons p ps ih =>
    intro h
    simp only [analyzeLoop]
    cases hp : analyze p with
    | error e => exact ⟨e, rfl⟩
    | ok c =>
      obtain ⟨q, hq, e, he⟩ := h
      rcases List.mem_cons.mp hq with rfl | hq
      · rw [hp] at he; cases he
      · obtain ⟨e', he'⟩ := ih ⟨q, hq, e, he⟩
        rw [he']
        exact ⟨e', rfl⟩

/-! ## Claim theorems -/

/-- C1, counterexample: an upstream feed that raises immediately, with zero
papers and zero lookback extensions performed (retry budget untouched), still
makes the collector raise — so exhaustion of the retry budget is not
necessary for failure, contrary to the claim's "only when … after the retry
budget is exhausted". -/
theorem collect_error_without_exhausted_budget :
    get_specific_date_papers [] true 0 = Except.error () ∧
    (collectState [] 0).retries = 0 ∧ (collectState [] 0).retries < 3 :=
  ⟨rfl, rfl, by show (0 : Nat) < 3; norm_num⟩

/-- C1 (amended): the collector raises exactly when the feed raised a
transport error (the loop consumed the whole stream and hit it) and zero
papers had been collected, irrespective of how many lookback extensions
occurred; with at least one collected paper the partial list is returned even
on a feed error, and with no feed error the (possibly empty) collected list
is returned. -/
theorem collect_error_characterization (feed : List Paper) (err : Bool) (start : Int) :
    (get_specific_date_papers feed err start = Except.error () ↔
      err = true ∧ (collectState feed start).reachedEnd = true ∧
        (collectState feed start).papers = []) ∧
    ((collectState feed start).papers ≠ [] →
      get_specific_date_papers feed err start =
        Except.ok (collectState feed start).papers) ∧
    (err = false →
      get_specific_date_papers feed err start =
        Except.ok (collectState feed start).papers) := by
  unfold get_specific_date_papers
  split
  · next h =>
    refine ⟨⟨fun _ => h, fun _ => rfl⟩, fun hne => absurd h.2.2 hne, fun hf => ?_⟩
    rw [hf] at h
    simp at h
  · next h =>
    exact ⟨⟨fun he => Except.noConfusion he, fun hc => absurd hc h⟩,
           fun _ => rfl, fun _ => rfl⟩

theorem collect_error_characterization_witness :
    get_specific_date_papers [] false 0 =
      Except.ok (collectState [] 0).papers :=
  (collect_error_characterization [] false 0).2.2 rfl

/-- C2: every record returned by the collector has its submission instant in
the half-open window `[final start, target start + one day)`, where the final
start is the target start moved one day backward per lookback extension that
occurred during the scan. -/
theorem collect_result_in_window (feed : List Paper) (err : Bool) (start : Int)
    (res : List Paper)
    (h : get_specific_date_papers feed err start = Except.ok res)
    (p : Paper) (hp : p ∈ res) :
    start - ((collectState feed start).retries : Int) * oneDay ≤ p.published ∧
    p.published < start + oneDay ∧
    (collectState feed start).start =
      start - ((collectState feed start).retries : Int) * oneDay := by
  have hstart : (collectState feed start).start =
      start - ((collectState feed start).retries : Int) * oneDay := by
    have h2 := (collectGo_start_eq (start + oneDay) feed start 0 []).2
    simpa [collectState] using h2
  have hres : res = (collectState feed start).papers := by
    unfold get_specific_date_papers at h
    split at h
    · exact Except.noConfusion h
    · exact (Except.ok.inj h).symm
  subst hres
  have hmem := collectGo_mem_window (start + oneDay) feed start 0 []
    (by simp) p hp
  rw [show collectGo (start + oneDay) feed start 0 [] = collectState feed start
        from rfl] at hmem
  exact ⟨hstart ▸ hmem.1, hmem.2, hstart⟩

theorem collect_result_in_window_witness :
    (0 : Int) - ((collectState [paperA] 0).retries : Int) * oneDay ≤
      paperA.published ∧
    paperA.published < 0 + oneDay ∧
    (collectState [paperA] 0).start =
      0 - ((collectState [paperA] 0).retries : Int) * oneDay :=
  collect_result_in_window [paperA] false 0 [paperA] rfl paperA (by simp)

/-- C3: in any call to the collector, at most 3 lookback extensions happen,
each moves the window start exactly one day backward (so the final start is
the initial start minus one day per extension and never lies forward of it),
and once the collected list is nonempty neither the extension counter nor the
start ever changes again. -/
theorem collect_extension_bounds (feed : List Paper) (start : Int) :
    (collectState feed start).retries ≤ 3 ∧
    (collectState feed start).start =
      start - ((collectState feed start).retries : Int) * oneDay ∧
    (collectState feed start).start ≤ start ∧
    (∀ (rest : List Paper) (tend wstart : Int) (r : Nat) (acc : List Paper),
      acc ≠ [] →
      (collectGo tend rest wstart r acc).retries = r ∧
      (collectGo tend rest wstart r acc).start = wstart) := by
  refine ⟨?_, ?_, ?_, ?_⟩
  · exact collectGo_retries_le (start + oneDay) feed start 0 [] (by omega)
  · have h2 := (collectGo_start_eq (start + oneDay) feed start 0 []).2
    simpa [collectState] using h2
  · exact collectGo_start_le (start + oneDay) feed start 0 []
  · intro rest tend wstart r acc hne
    exact collectGo_frozen tend rest wstart r acc hne

theorem collect_extension_bounds_witness :
    (collectGo 1 [] 0 0 [paperA]).retries = 0 ∧
    (collectGo 1 [] 0 0 [paperA]).start = 0 :=
  (collect_extension_bounds [] 0).2.2.2 [] 1 0 0 [paperA] (by simp)

/-- C4: the ranker returns exactly `min 10 (number of inputs)` rows (hence at
most 10, and none for an empty input), their scores are non-increasing along
the output, and their rank fields are exactly 1, 2, …, in order. -/
theorem rank_top10_shape (fmt : Int → String) (papers : List Paper)
    (scorer : Paper → Int) :
    (save_top10 fmt papers scorer).length ≤ 10 ∧
    (save_top10 fmt papers scorer).length = min 10 papers.length ∧
    (save_top10 fmt papers scorer).map (fun r => r.rank) =
      List.range' 1 (min 10 papers.length) ∧
    ((save_top10 fmt papers scorer).map (fun r => r.score)).Pairwise
      (fun a b => b ≤ a) ∧
    save_top10 fmt [] scorer = [] := by
  have hlen : (save_top10 fmt papers scorer).length = min 10 papers.length := by
    rw [save_top10, length_assignRanksFrom, List.length_take, length_sortDesc]
    simp [scoredRows]
  refine ⟨by omega, hlen, ?_, ?_, rfl⟩
  · rw [save_top10, map_rank_assignRanksFrom, List.length_take, length_sortDesc]
    simp [scoredRows]
  · rw [save_top10, map_score_assignRanksFrom]
    have hs : SortedDesc ((sortDesc (scoredRows fmt papers scorer)).take 10) :=
      List.Pairwise.sublist (List.take_sublist 10 _)
        (sortDesc_sorted (scoredRows fmt papers scorer))
    exact List.pairwise_map.mpr hs

/-- C5: the descending sort underlying the ranker is stable with respect to
the input order: for every score `s`, the rows of score `s` appear in the
sorted list in exactly their input order (so among ties, the row built from
the earlier input paper comes earlier, also in the truncated top 10). -/
theorem rank_sort_stable (fmt : Int → String) (papers : List Paper)
    (scorer : Paper → Int) (s : Int) :
    (sortDesc (scoredRows fmt papers scorer)).filter
        (fun r => decide (r.score = s)) =
      (scoredRows fmt papers scorer).filter (fun r => decide (r.score = s)) := by
  have h := filter_foldl_insertDesc s (scoredRows fmt papers scorer) []
    (by simp [SortedDesc])
  simpa [sortDesc] using h

/-- C6: the CSV artifact path depends only on the run date (it is the same
for any two target dates), has the shape `data/daily_top10/top10_<run>.csv`,
and the CSV columns are, in order: rank, title, url, score, authors (the
author count), categories (comma-joined), published, updated, abstract. -/
theorem csv_run_date_and_columns (run t₁ t₂ : String) (r : ScoredRow)
    (fmt : Int → String) (p : Paper) (sc : Int) :
    csv_file run t₁ = csv_file run t₂ ∧
    csv_file run t₁ = "data/daily_top10/top10_" ++ run ++ ".csv" ∧
    (rowFields r).map Prod.fst =
      ["rank", "title", "url", "score", "authors", "categories",
       "published", "updated", "abstract"] ∧
    (mkRow fmt p sc).authors = p.authors.length ∧
    (mkRow fmt p sc).categories = String.intercalate ", " p.categories :=
  ⟨rfl, rfl, rfl, rfl, rfl⟩

/-- C7: if analyzing any one of the top-10 papers fails, the reporting phase
propagates the error, and its side-effect trace contains no JSON write, no
HTML render and no email dispatch — only per-paper analysis attempts. -/
theorem analysis_failure_aborts (analyze : ScoredRow → Except String String)
    (top10 : List ScoredRow) (ts : String)
    (h : ∃ p ∈ top10, ∃ e, analyze p = Except.error e) :
    (∃ e, (analyze_and_generate_report analyze top10 ts).2 = Except.error e) ∧
    (∀ eff ∈ (analyze_and_generate_report analyze top10 ts).1,
      isReportEffect eff = false) := by
  obtain ⟨e, he⟩ := analyzeLoop_error analyze top10 h
  unfold analyze_and_generate_report
  rw [he]
  exact ⟨⟨e, rfl⟩, analyzeLoop_trace_analyzed analyze top10⟩

theorem analysis_failure_aborts_witness :
    (∃ e, (analyze_and_generate_report (fun _ => Except.error "E") [row0]
        "20240101_000000").2 = Except.error e) ∧
    (∀ eff ∈ (analyze_and_generate_report (fun _ => Except.error "E") [row0]
        "20240101_000000").1, isReportEffect eff = false) :=
  analysis_failure_aborts (fun _ => Except.error "E") [row0] "20240101_000000"
    ⟨row0, by simp, "E", rfl⟩

/-- C8: the ranker is deterministic — two calls on equal input lists with
pointwise-equal (pure) scorers produce identical outputs. -/
theorem rank_deterministic (fmt : Int → String) (papers₁ papers₂ : List Paper)
    (scorer₁ scorer₂ : Paper → Int) (hp : papers₁ = papers₂)
    (hs : ∀ p, scorer₁ p = scorer₂ p) :
    save_top10 fmt papers₁ scorer₁ = save_top10 fmt papers₂ scorer₂ := by
  subst hp
  have h : scorer₁ = scorer₂ := funext hs
  rw [h]

theorem rank_deterministic_witness :
    save_top10 (fun _ => "1970-01-01") [paperA] (fun _ => 1) =
      save_top10 (fun _ => "1970-01-01") [paperA] (fun _ => 1) :=
  rank_deterministic (fun _ => "1970-01-01") [paperA] [paperA]
    (fun _ => 1) (fun _ => 1) rfl (fun _ => rfl)

/-- C9: a record whose submission time lies one day or less before the
current window start triggers a lookback extension and is itself skipped:
the scan returns without it even though its timestamp lies inside the
extended window `[start − one day, start + one day)`, while a later feed item
in that same extended window is collected. -/
theorem lookback_skips_trigger_record (p : Paper) (start : Int)
    (h1 : start - oneDay ≤ p.published) (h2 : p.published < start) :
    get_specific_date_papers [p] false start = Except.ok [] ∧
    (collectState [p] start).start = start - oneDay ∧
    (collectState [p] start).start ≤ p.published ∧
    p.published < start + oneDay ∧
    (∀ q : Paper, start - oneDay ≤ q.published → q.published < start →
      get_specific_date_papers [p, q] false start = Except.ok [q]) := by
  have hd : (0 : Int) < oneDay := by norm_num [oneDay]
  have e1 : collectState [p] start = ⟨[], start - oneDay, 1, true⟩ := by
    unfold collectState
    simp only [collectGo]
    rw [if_neg (by omega), if_pos h2, if_pos (by norm_num)]
  refine ⟨?_, ?_, ?_, by omega, ?_⟩
  · unfold get_specific_date_papers
    rw [e1]
    simp
  · rw [e1]
  · rw [e1]; exact h1
  · intro q hq1 hq2
    have e2 : collectState [p, q] start = ⟨[q], start - oneDay, 1, true⟩ := by
      unfold collectState
      simp only [collectGo]
      rw [if_neg (by omega), if_pos h2, if_pos (by norm_num),
          if_neg (by omega), if_neg (by omega)]
      simp
    unfold get_specific_date_papers
    rw [e2]
    simp

theorem lookback_skips_trigger_record_witness :
    get_specific_date_papers [paperOld] false 0 = Except.ok [] ∧
    (collectState [paperOld] 0).start = 0 - oneDay ∧
    (collectState [paperOld] 0).start ≤ paperOld.published ∧
    paperOld.published < 0 + oneDay ∧
    (∀ q : Paper, 0 - oneDay ≤ q.published → q.published < 0 →
      get_specific_date_papers [paperOld, q] false 0 = Except.ok [q]) :=
  lookback_skips_trigger_record paperOld 0 (by decide) (by decide)

/-- C10: with an empty collected list the top 10 is empty, yet the reporting
phase runs every side effect unconditionally and in order: it writes the JSON
artifact containing the empty array, renders the HTML report from the empty
collection, and dispatches the email, succeeding with the empty result. -/
theorem empty_top10_still_reports (analyze : ScoredRow → Except String String)
    (ts : String) (fmt : Int → String) (scorer : Paper → Int) :
    analyze_and_generate_report analyze (save_top10 fmt [] scorer) ts =
      ([Effect.wroteJson (analysis_file ts) [], Effect.renderedHtml [],
        Effect.sentEmail []], Except.ok []) := rfl
